import Mathlib

/-!
Verification development for the content-generation post-processing pipeline
(`src/services/seoMetrics.ts`, `src/utils/contentFormatter.ts`).

The TypeScript code is shallowly embedded over `Str := List Char`
(one entry per Unicode code point; the inputs under study are BMP-only, where
JavaScript UTF-16 lengths and code-point lengths agree).  JavaScript regular
expressions are embedded as specialised scanners that reproduce the
leftmost-match, greedy/lazy and backtracking behaviour of each concrete
pattern appearing in the source.  Machine numbers are embedded as `Nat`/`Int`
(timestamps, scores) and `Rat` (keyword densities); the only floating-point
operations in the relevant code are weighted averages and two-decimal
rounding whose IEEE rounding differs from exact rational rounding only at
half-point ties, which none of the verified statements depend on.
Every definition is executable so that concrete witnesses evaluate by
`decide` / `rfl`.
-/

namespace PostAnalyze

/-- Character lists standing for JavaScript strings (code-point view). -/
abbrev Str := List Char

/-- JavaScript whitespace class `\s` (also the character set stripped by
`String.prototype.trim`): ASCII whitespace, NBSP, BOM, and the Unicode
space separators. -/
def jsWSChars : List Char :=
  [' ', '\t', '\n', '\r', '\x0b', '\x0c',
   ' ', ' ', ' ', ' ', ' ', ' ', ' ',
   ' ', ' ', ' ', ' ', ' ', ' ',
   ' ', ' ', ' ', ' ', '　', '﻿']

/-- Membership test for the JS `\s` class. -/
def jsWS (c : Char) : Bool := jsWSChars.contains c

/-- JavaScript `String.prototype.trim`. -/
def jsTrim (s : Str) : Str :=
  ((s.dropWhile jsWS).reverse.dropWhile jsWS).reverse

/-- Length of the maximal whitespace run at the head of `s`. -/
def wsRunLen (s : Str) : Nat := (s.takeWhile jsWS).length

/-- Does `pat` occur as a contiguous substring of `s`?  (JS `String.includes`
or an unanchored literal regex test.) -/
def containsSub (pat : Str) : Str → Bool
  | [] => pat.isPrefixOf []
  | c :: rest => pat.isPrefixOf (c :: rest) || containsSub pat rest

/-- Any of the literal alternatives occurs in `s` (a JS alternation regex
such as the how-to phrasing test on titles). -/
def containsAny (pats : List Str) (s : Str) : Bool :=
  pats.any (fun p => containsSub p s)

/-- JS `String.prototype.split` on a single literal character (used for the
comma splitting of category/tag lists and the sentence-terminator count). -/
def splitOnChar (sep : Char) : Str → List Str
  | [] => [[]]
  | c :: rest =>
    if c = sep then
      [] :: splitOnChar sep rest
    else
      match splitOnChar sep rest with
      | [] => [[c]]
      | p :: ps => (c :: p) :: ps

/-- Number of non-overlapping occurrences of the literal `pat` in `s`,
scanning left to right (JS computes the paragraph count as
`content.split(sep).length - 1` for a literal separator).  Fuelled: each
step consumes at least one character, so `s.length` fuel always suffices. -/
def countOccF (pat : Str) : Nat → Str → Nat
  | 0, _ => 0
  | _, [] => 0
  | fuel + 1, c :: rest =>
    if pat.isPrefixOf (c :: rest) ∧ pat ≠ [] then
      countOccF pat fuel ((c :: rest).drop pat.length) + 1
    else
      countOccF pat fuel rest

/-- Occurrence-count wrapper with sufficient fuel. -/
def countOcc (pat : Str) (s : Str) : Nat := countOccF pat s.length s

/-- Greedy `\s+` followed by greedy `(.+)$` in a multiline pattern, starting
immediately after the fixed prefix of the regex (used by the title pattern
and the per-line part of the heading pattern).  The countdown argument is the
greedy amount of whitespace `\s+` keeps (initially the full whitespace run),
reproducing the engine's backtracking: the largest amount `a ≥ 1` such that a
non-newline character follows is chosen.  Returns the captured non-newline
run together with the remainder of the text after it. -/
def wsPlusLine (r : Str) : Nat → Option (Str × Str)
  | 0 => none
  | a + 1 =>
    match r.drop (a + 1) with
    | [] => wsPlusLine r a
    | c :: rest =>
      if c = '\n' then wsPlusLine r a
      else some ((c :: rest).takeWhile (· ≠ '\n'), (c :: rest).dropWhile (· ≠ '\n'))

/-- Greedy `\s*` followed by a literal newline (the tail of the
horizontal-rule pattern and of the blank-line paragraph separator): the
engine keeps the longest whitespace run whose next character is a newline,
i.e. it cuts at the last newline inside the run.  Returns the remainder
after that newline. -/
def wsStarNl (r : Str) : Nat → Option Str
  | 0 =>
    match r with
    | '\n' :: rest => some rest
    | _ => none
  | a + 1 =>
    match r.drop (a + 1) with
    | '\n' :: rest => some rest
    | _ => wsStarNl r a

/-- Greedy `\s*` followed by the lazy group of the labelled-line extractors
(meta description, categories, tags): greedy `\s*` backtracks from the full
whitespace run down to `0` until a non-newline character follows; the lazy
group then extends exactly to the next newline or the end of input. -/
def wsStarGrab (r : Str) : Nat → Option Str
  | 0 =>
    match r with
    | [] => none
    | c :: rest => if c = '\n' then none else some ((c :: rest).takeWhile (· ≠ '\n'))
  | a + 1 =>
    match r.drop (a + 1) with
    | [] => wsStarGrab r a
    | c :: rest =>
      if c = '\n' then wsStarGrab r a
      else some ((c :: rest).takeWhile (· ≠ '\n'))

/-! ### ResponseParser scanners (`parseMarkdownArticle`, seoMetrics.ts 1466-1568) -/

/-- Attempt the title pattern at a line start: a literal hash mark, then
`\s+`, then the greedy line capture.  Returns the captured group. -/
def titleAt (s : Str) : Option Str :=
  match s with
  | '#' :: r => (wsPlusLine r (wsRunLen r)).map (·.1)
  | _ => none

/-- First match of the multiline title pattern: scan every line start (the
flag tracks whether the current position follows a newline), left to
right. -/
def findTitleLine : Str → Bool → Option Str
  | [], _ => none
  | c :: rest, atLS =>
    match (if atLS then titleAt (c :: rest) else none) with
    | some g => some g
    | none => findTitleLine rest (c = '\n')

/-- First match of a labelled-line pattern (`**…:**` followed by `\s*`, a
lazy capture, and a newline-or-end): scan every index; where the literal
label matches but the tail cannot, the engine resumes at the next index. -/
def findLabeled (label : Str) : Str → Option Str
  | [] => none
  | c :: rest =>
    if label.isPrefixOf (c :: rest) then
      let r := (c :: rest).drop label.length
      match wsStarGrab r (wsRunLen r) with
      | some g => some g
      | none => findLabeled label rest
    else findLabeled label rest

/-- First match of the horizontal-rule pattern (three dashes, `\s*`, a
newline, then the rest of the input as the capture): scan every index, and
where the dashes match but no newline terminates the whitespace run the
engine resumes at the next index.  Returns the capture (text after the
delimiter). -/
def findDelim : Str → Option Str
  | [] => none
  | c :: rest =>
    if ['-', '-', '-'].isPrefixOf (c :: rest) then
      let r := (c :: rest).drop 3
      match wsStarNl r (wsRunLen r) with
      | some g => some g
      | none => findDelim rest
    else findDelim rest

/-- Attempt the global heading pattern (two to six hashes at a line start,
`\s+`, greedy line capture) at the head of `s`.  A run of more than six
hashes can never match: the hash counter is capped at six and every shorter
greedy attempt is followed by another hash, not whitespace.  Returns the
hash count (the level), the captured text run, and the remainder of the
input after the match. -/
def headingAt (s : Str) : Option (Nat × Str × Str) :=
  let hashes := (s.takeWhile (· = '#')).length
  if 2 ≤ hashes ∧ hashes ≤ 6 then
    let r := s.drop hashes
    (wsPlusLine r (wsRunLen r)).map (fun p => (hashes, p.1, p.2))
  else none

/-- All matches of the global multiline heading pattern, in document order.
After a match the scan resumes at the match end; since the captured run
extends to a newline or the end, the next candidate line start follows that
newline.  Lines that do not match are skipped whole.  The fuel argument
bounds the recursion (each step consumes at least one character, so
`s.length + 1` is always sufficient). -/
def scanHeadingsF : Nat → Str → List (Nat × Str)
  | 0, _ => []
  | fuel + 1, s =>
    match headingAt s with
    | some (lvl, run, rest) => (lvl, run) :: scanHeadingsF fuel (rest.drop 1)
    | none =>
      match s with
      | [] => []
      | _ :: _ => scanHeadingsF fuel ((s.dropWhile (· ≠ '\n')).drop 1)

/-- Heading scan wrapper with sufficient fuel. -/
def scanHeadings (s : Str) : List (Nat × Str) := scanHeadingsF (s.length + 1) s

/-- Does a section separator (two to six hashes at a line start followed by
`\s+`) match at the head of `s`?  If so, return the match length and
whether the match ends with a newline (which makes the resume position a
line start again). -/
def sectionSepAt (s : Str) : Option (Nat × Bool) :=
  let hashes := (s.takeWhile (· = '#')).length
  if 2 ≤ hashes ∧ hashes ≤ 6 then
    let w := wsRunLen (s.drop hashes)
    if w = 0 then none
    else some (hashes + w, (s.drop (hashes + w - 1)).headD ' ' = '\n')
  else none

/-- JS `fullContent.split` on the multiline section-separator pattern: the
pieces between successive separator matches, scanning left to right with the
line-start flag threaded through.  The accumulator holds the current piece
reversed.  Fuelled as above. -/
def splitSectionsF : Nat → Str → Bool → Str → List Str
  | 0, _, _, acc => [acc.reverse]
  | _, [], _, acc => [acc.reverse]
  | fuel + 1, s@(c :: rest), atLS, acc =>
    match (if atLS then sectionSepAt s else none) with
    | some (len, endsNl) => acc.reverse :: splitSectionsF fuel (s.drop len) endsNl []
    | none => splitSectionsF fuel rest (c = '\n') (c :: acc)

/-- Section split wrapper with sufficient fuel. -/
def splitSections (s : Str) : List Str := splitSectionsF (s.length + 1) s true []

/-- Element description of a parsed heading (level, text, synthesised
description). -/
structure HeadingE where
  level : Nat
  text : Str
  description : Str
  deriving DecidableEq

/-- Category/tag suggestion pair (`existing` ids and `new` names). -/
structure TaxonomyE where
  existing : List Str
  new : List Str
  deriving DecidableEq

/-- The three body segments of a parsed article. -/
structure FullArticleE where
  introduction : Str
  mainContent : Str
  conclusion : Str
  deriving DecidableEq

/-- The structured `AISuggestion` produced by the parser. -/
structure SuggestionE where
  titles : List Str
  categories : TaxonomyE
  tags : TaxonomyE
  headings : List HeadingE
  metaDescriptions : List Str
  fullArticle : Option FullArticleE
  deriving DecidableEq

/-- One comma-separated list item: trimmed, with square brackets removed
(JS maps trim then a global bracket-character replacement). -/
def cleanListItem (s : Str) : Str :=
  (jsTrim s).filter (fun c => ¬ (c = '[' ∨ c = ']'))

/-- The labelled-line list extraction: split the captured group on commas,
clean each item, and keep the non-empty ones. -/
def extractNameList (label : String) (text : Str) : List Str :=
  match findLabeled label.data text with
  | some g => ((splitOnChar ',' g).map cleanListItem).filter (fun n => n.length > 0)
  | none => []

/-- Body text: the capture of the horizontal-rule pattern, trimmed; when no
delimiter matches, the whole raw input verbatim. -/
def fullContentOf (text : Str) : Str :=
  match findDelim text with
  | some g => jsTrim g
  | none => text

/-- Whether the horizontal-rule delimiter pattern matches anywhere in the
input. -/
def containsDelim (text : Str) : Bool := (findDelim text).isSome

/-- Sections of the body around the level-2..6 heading separators. -/
def bodySections (text : Str) : List Str := splitSections (fullContentOf text)

/-- Embeds `parseMarkdownArticle` (seoMetrics.ts 1466-1568).  The `try` body never
throws (all the string operations are total), so the catch-all fallback
branch of the source is dead code and the translation is the `try` body
itself. -/
def parseMarkdownArticle (text : Str) : SuggestionE :=
  let title := match findTitleLine text true with
    | some g => jsTrim g
    | none => "生成された記事".data
  let metaDescription := match findLabeled "**メタディスクリプション:**".data text with
    | some g => jsTrim g
    | none => []
  let categoryNames := extractNameList "**推奨カテゴリー:**" text
  let tagNames := extractNameList "**推奨タグ:**" text
  let fullContent := fullContentOf text
  let headings := (scanHeadings fullContent).map (fun p =>
    { level := p.1, text := jsTrim p.2,
      description := jsTrim p.2 ++ "に関する詳細な解説".data })
  let sections := splitSections fullContent
  let introduction := (jsTrim (sections.headD [])).take 300
  let mainContent := fullContent
  -- `substring(-200)` in the source clamps the negative start to 0, so the
  -- conclusion is the whole trimmed last section.
  let conclusion := if sections.length > 1 then jsTrim (sections.getLastD []) else []
  { titles := [title]
    categories := { existing := [], new := categoryNames }
    tags := { existing := [], new := tagNames }
    headings := headings
    metaDescriptions := if metaDescription ≠ [] then [metaDescription] else []
    fullArticle := some
      { introduction := introduction
        mainContent := mainContent
        conclusion := conclusion } }

/-! ### ContentReconstructor (`contentFormatter.ts`) -/

/-- JS split on the blank-line pattern (a newline, `\s*`, a newline): the
match cuts at the last newline of each whitespace run that contains at least
two newlines.  The accumulator holds the current piece reversed; fuelled as
above (each step consumes at least one character). -/
def splitBlankF : Nat → Str → Str → List Str
  | 0, _, acc => [acc.reverse]
  | _, [], acc => [acc.reverse]
  | fuel + 1, '\n' :: rest, acc =>
    match wsStarNl rest (wsRunLen rest) with
    | some rem => acc.reverse :: splitBlankF fuel rem []
    | none => splitBlankF fuel rest ('\n' :: acc)
  | fuel + 1, c :: rest, acc => splitBlankF fuel rest (c :: acc)

/-- Blank-line split wrapper with sufficient fuel. -/
def splitBlank (s : Str) : List Str := splitBlankF (s.length + 1) s []

/-- Paragraph list of a text: blank-line split, trimmed, empties dropped
(`contentFormatter.ts` 14-17 and 108-111). -/
def paragraphsOf (text : Str) : List Str :=
  ((splitBlank text).map jsTrim).filter (fun p => p.length > 0)

/-- Replace every newline by a break tag (JS global replacement inside a
paragraph). -/
def nlToBr : Str → Str
  | [] => []
  | '\n' :: rest => "<br>".data ++ nlToBr rest
  | c :: rest => c :: nlToBr rest

/-- Embeds `formatTextToParagraphs` (contentFormatter.ts 10-27). -/
def formatTextToParagraphs (text : Str) : Str :=
  if text = [] then []
  else
    List.intercalate "\n\n".data
      ((paragraphsOf text).map (fun p => "<p>".data ++ nlToBr p ++ "</p>".data))

/-- Embeds `splitContentByHeadings` (contentFormatter.ts 102-127): ceiling-division
allocation of the paragraph list into one contiguous group per heading; the
loop body `slice(i*k, min(i*k+k, P)).join` is `drop (i*k) |>.take k` joined
with blank lines. -/
def splitContentByHeadings (mainContent : Str) (headings : List HeadingE) : List Str :=
  let paragraphs := paragraphsOf mainContent
  if paragraphs.length = 0 then []
  else
    let k := (paragraphs.length + headings.length - 1) / headings.length
    (List.range headings.length).map (fun i =>
      List.intercalate "\n\n".data ((paragraphs.drop (i * k)).take k))

/-- The string appended for one heading by the loop of
`formatFullArticleToHTML` (contentFormatter.ts 72-82): the heading tag, then
the paragraph-formatted section body, or the paragraph-formatted heading
description when the section is absent or empty. -/
def headingBlock (h : HeadingE) (section_ : Str) : Str :=
  "<h".data ++ (toString h.level).data ++ ">".data ++ h.text ++
    "</h".data ++ (toString h.level).data ++ ">".data ++ "\n".data ++
  (if section_ ≠ [] then formatTextToParagraphs section_
   else formatTextToParagraphs h.description) ++ "\n\n".data

/-- Embeds `formatFullArticleToHTML` (contentFormatter.ts 46-97). -/
def formatFullArticleToHTML (s : SuggestionE) : Str :=
  match s.fullArticle with
  | none => []
  | some fa =>
    let introPart :=
      if fa.introduction ≠ [] then
        "<div class=\"introduction\">\n".data ++ formatTextToParagraphs fa.introduction ++
          "\n</div>\n\n".data
      else []
    let mainPart :=
      if fa.mainContent ≠ [] then
        if s.headings ≠ [] then
          let contentSections := splitContentByHeadings fa.mainContent s.headings
          "<div class=\"main-content\">\n".data ++
            ((List.range s.headings.length).map (fun i =>
              headingBlock (s.headings.getD i ⟨0, [], []⟩) (contentSections.getD i []))).flatten ++
            "</div>\n\n".data
        else
          "<div class=\"main-content\">\n".data ++ formatTextToParagraphs fa.mainContent ++
            "\n</div>\n\n".data
      else []
    let conclPart :=
      if fa.conclusion ≠ [] then
        "<div class=\"conclusion\">\n".data ++ formatTextToParagraphs fa.conclusion ++
          "\n</div>".data
      else []
    jsTrim (introPart ++ mainPart ++ conclPart)

/-! ### SeoScorer (seoMetrics.ts 1-412) -/

/-- Tag removal pass of `extractPlainText`: each tag-like span (an opening
angle bracket, any characters other than a closing bracket, then a closing
bracket) is replaced by one space; an opening bracket with no later closing
bracket stays.  Fuelled as above. -/
def stripTagsF : Nat → Str → Str
  | 0, s => s
  | _, [] => []
  | fuel + 1, '<' :: rest =>
    match rest.dropWhile (· ≠ '>') with
    | '>' :: r => ' ' :: stripTagsF fuel r
    | _ => '<' :: stripTagsF fuel rest
  | fuel + 1, c :: rest => c :: stripTagsF fuel rest

/-- Whitespace normalisation pass of `extractPlainText`: every whitespace
run becomes a single space. -/
def collapseWSF : Nat → Str → Str
  | 0, s => s
  | _, [] => []
  | fuel + 1, c :: rest =>
    if jsWS c then ' ' :: collapseWSF fuel (rest.dropWhile jsWS)
    else c :: collapseWSF fuel rest

/-- Embeds `extractPlainText` (seoMetrics.ts 18-26). -/
def extractPlainText (html : Str) : Str :=
  if html = [] then []
  else jsTrim (collapseWSF html.length (stripTagsF html.length html))

/-- Length of `s.split` on a whitespace-run pattern: one more than the
number of maximal whitespace runs in `s` (the JS split keeps the leading and
trailing empty pieces; the pattern cannot match emptily). -/
def wsRuns : Str → Bool → Nat
  | [], _ => 0
  | c :: rest, inRun =>
    if jsWS c then (if inRun then 0 else 1) + wsRuns rest true
    else wsRuns rest false

/-- JS `text.split` on whitespace, counting the pieces (the word counter of
the scorer). -/
def splitWSLen (s : Str) : Nat := wsRuns s false + 1

/-- Case-insensitive character comparison for the `/i` heading-count
patterns (ASCII case folding; tag names and digits only). -/
def ciEq (a b : Char) : Bool := a.toLower = b.toLower

/-- Case-insensitive literal prefix test. -/
def ciPrefix : Str → Str → Bool
  | [], _ => true
  | _ :: _, [] => false
  | p :: ps, c :: cs => ciEq p c && ciPrefix ps cs

/-- Scan for the closing tag of a heading element: the lazy dot-star admits
no newline, so the search fails as soon as a newline precedes the closing
literal.  Returns the remainder after the closing tag. -/
def findCloseTag (d : Char) : Str → Option Str
  | [] => none
  | c :: rest =>
    if ciPrefix ['<', '/', 'h', d, '>'] (c :: rest) then some ((c :: rest).drop 5)
    else if c = '\n' then none
    else findCloseTag d rest

/-- Count of matches of one heading-element pattern (open tag with arbitrary
attribute characters, lazy non-newline body, closing tag), case-insensitive,
global: after a match the scan resumes behind the closing tag.  Fuelled as
above. -/
def countHeadF (d : Char) : Nat → Str → Nat
  | 0, _ => 0
  | _, [] => 0
  | fuel + 1, c :: rest =>
    (if ciPrefix ['<', 'h', d] (c :: rest) then
      match ((c :: rest).drop 3).dropWhile (· ≠ '>') with
      | '>' :: r =>
        match findCloseTag d r with
        | some rem => some rem
        | none => none
      | _ => none
    else none).elim (countHeadF d fuel rest) (fun rem => countHeadF d fuel rem + 1)

/-- Per-level heading counts (`countHeadings`, seoMetrics.ts 31-50). -/
structure HeadingCountE where
  h1 : Nat
  h2 : Nat
  h3 : Nat
  h4 : Nat
  h5 : Nat
  h6 : Nat
  deriving DecidableEq

/-- Embeds `countHeadings` (seoMetrics.ts 31-50). -/
def countHeadings (html : Str) : HeadingCountE :=
  { h1 := countHeadF '1' html.length html
    h2 := countHeadF '2' html.length html
    h3 := countHeadF '3' html.length html
    h4 := countHeadF '4' html.length html
    h5 := countHeadF '5' html.length html
    h6 := countHeadF '6' html.length html }

/-- Total of the per-level heading counts. -/
def totalHeadings (hc : HeadingCountE) : Nat :=
  hc.h1 + hc.h2 + hc.h3 + hc.h4 + hc.h5 + hc.h6

/-- One keyword entry of the metrics (`KeywordStat`). -/
structure KeywordStatE where
  term : Str
  frequency : Nat
  density : ℚ
  deriving DecidableEq

/-- JS word characters (the regex word class: ASCII letters, digits,
underscore). -/
def jsWordChar (c : Char) : Bool :=
  ('a' ≤ c ∧ c ≤ 'z') ∨ ('A' ≤ c ∧ c ≤ 'Z') ∨ ('0' ≤ c ∧ c ≤ '9') ∨ c = '_'

/-- Tokenisation by the word-run pattern with a two-character minimum:
maximal word-character runs of length at least two, in order.  Fuelled as
above. -/
def wordRunsF : Nat → Str → List Str
  | 0, _ => []
  | _, [] => []
  | fuel + 1, c :: rest =>
    if jsWordChar c then
      let run := (c :: rest).takeWhile jsWordChar
      let rem := (c :: rest).dropWhile jsWordChar
      if run.length ≥ 2 then run :: wordRunsF fuel rem else wordRunsF fuel rem
    else wordRunsF fuel rest

/-- Token list wrapper with sufficient fuel. -/
def wordRuns (s : Str) : List Str := wordRunsF s.length s

/-- ASCII lowercasing of a word (JS `toLowerCase`; the tokens consist of
word characters, and the title/content text is already lowercased
character-wise before tokenisation). -/
def lowerStr (s : Str) : Str := s.map Char.toLower

/-- Insertion-ordered frequency table update (a JS object keyed by the
word). -/
def bumpWord (m : List (Str × Nat)) (w : Str) : List (Str × Nat) :=
  if m.any (fun p => p.1 = w) then
    m.map (fun p => if p.1 = w then (p.1, p.2 + 1) else p)
  else m ++ [(w, 1)]

/-- The frequency table: only tokens of length at least three are counted
(seoMetrics.ts 63-68). -/
def wordCountsOf (words : List Str) : List (Str × Nat) :=
  words.foldl (fun m w => if w.length ≥ 3 then bumpWord m w else m) []

/-- Table lookup with zero default (JS `wordCounts[k] || 0`). -/
def lookupCount (m : List (Str × Nat)) (k : Str) : Nat :=
  match m.find? (fun p => p.1 = k) with
  | some p => p.2
  | none => 0

/-- Two-decimal rounding of a percentage (JS
`Math.round(density * 100) / 100` for a non-negative argument; `Math.round`
is floor of the argument plus one half). -/
def round2 (q : ℚ) : ℚ := ((⌊q * 100 + 1 / 2⌋ : ℤ) : ℚ) / 100

/-- Keyword density in percent (zero denominator guarded). -/
def densityOf (frequency totalWords : Nat) : ℚ :=
  if totalWords > 0 then round2 ((frequency : ℚ) / (totalWords : ℚ) * 100) else 0

/-- Stable descending insertion by frequency (the JS stable sort with the
numeric descending comparator; a stable sort is determined by the induced
preorder, so insertion sort reproduces it). -/
def insertDesc (x : Str × Nat) : List (Str × Nat) → List (Str × Nat)
  | [] => [x]
  | y :: ys => if y.2 > x.2 then y :: insertDesc x ys else x :: y :: ys

/-- Stable descending sort by frequency. -/
def sortDescByCount (l : List (Str × Nat)) : List (Str × Nat) :=
  l.foldr insertDesc []

/-- Embeds `analyzeKeywords` (seoMetrics.ts 55-104): target keywords first (each
with its table frequency, zero if absent), then the top-ten most frequent
non-target tokens, capped at fifteen entries. -/
def analyzeKeywords (text : Str) (targetKeywords : List Str) : List KeywordStatE :=
  if text = [] then []
  else
    let plainText := lowerStr text
    let words := wordRuns plainText
    let totalWords := words.length
    let wordCounts := wordCountsOf words
    let targetEntries :=
      targetKeywords.map (fun kw =>
        let frequency := lookupCount wordCounts (lowerStr kw)
        { term := kw, frequency := frequency,
          density := densityOf frequency totalWords : KeywordStatE })
    let topWords :=
      ((sortDescByCount wordCounts).take 10).filter
        (fun p => ¬ targetKeywords.any (fun tk => lowerStr tk = p.1))
    let topEntries :=
      topWords.map (fun p =>
        { term := p.1, frequency := p.2,
          density := densityOf p.2 totalWords : KeywordStatE })
    (targetEntries ++ topEntries).take 15

/-- Final clamp applied by every sub-score (JS
`Math.min(Math.max(score, 0), 100)`). -/
def clampScore (x : Int) : Nat := (min (max x 0) 100).toNat

/-- Embeds `calculateTitleScore` (seoMetrics.ts 109-139). -/
def calculateTitleScore (title : Str) : Nat :=
  if title = [] then 0
  else
    let length := title.length
    let score : Int :=
      (if 30 ≤ length ∧ length ≤ 60 then 40
       else if 20 ≤ length ∧ length ≤ 80 then 25 else 10) +
      (if title.any (fun c => '0' ≤ c ∧ c ≤ '9') then 15 else 0) +
      (if containsAny (["方法", "やり方", "手順", "コツ", "秘訣"].map String.data) title
       then 10 else 0) +
      (if containsAny (["まとめ", "一覧", "比較", "ランキング"].map String.data) title
       then 10 else 0) +
      (if containsAny (["無料", "簡単", "効果的", "最新", "おすすめ"].map String.data) title
       then 10 else 0) +
      (if title.any (fun c => c = '？' ∨ c = '?') then 10 else 0) +
      (if title.any (fun c => c = '！' ∨ c = '!') then 5 else 0) -
      (if length > 100 then 20 else 0) -
      (if containsSub "...".data title ∨ containsSub "。。。".data title then 10 else 0)
    clampScore score

/-- Embeds `calculateMetaDescriptionScore` (seoMetrics.ts 144-170). -/
def calculateMetaDescriptionScore (metaDescription : Str) : Nat :=
  if metaDescription = [] then 0
  else
    let length := metaDescription.length
    let score : Int :=
      (if 120 ≤ length ∧ length ≤ 160 then 50
       else if 100 ≤ length ∧ length ≤ 180 then 35
       else if 80 ≤ length ∧ length ≤ 200 then 20 else 5) +
      (if containsAny (["方法", "やり方", "解説", "紹介", "ポイント"].map String.data)
          metaDescription then 15 else 0) +
      (if containsAny (["詳しく", "わかりやすく", "簡単に", "効果的"].map String.data)
          metaDescription then 10 else 0) +
      (if containsAny (["無料", "おすすめ", "最新", "人気"].map String.data)
          metaDescription then 10 else 0) +
      (if containsSub "。".data metaDescription ∧
          (splitOnChar '。' metaDescription).length ≥ 2 then 10 else 0)
    clampScore score

/-- Embeds `calculateContentStructureScore` (seoMetrics.ts 175-222). -/
def calculateContentStructureScore (content : Str) (headingCount : HeadingCountE) : Nat :=
  if content = [] then 0
  else
    let wordCount := splitWSLen (extractPlainText content)
    let total := totalHeadings headingCount
    let paragraphs := countOcc "</p>".data content
    let score : Int :=
      (if 1000 ≤ wordCount ∧ wordCount ≤ 3000 then 30
       else if 500 ≤ wordCount ∧ wordCount ≤ 5000 then 20
       else if 300 ≤ wordCount then 10 else 0) +
      (if 3 ≤ total ∧ total ≤ 10 then 25
       else if 1 ≤ total ∧ total ≤ 15 then 15 else 0) +
      (if headingCount.h1 = 1 then 15 else if headingCount.h1 = 0 then 5 else 0) +
      (if 2 ≤ headingCount.h2 ∧ headingCount.h2 ≤ 8 then 15
       else if 1 ≤ headingCount.h2 then 10 else 0) +
      (if 3 ≤ paragraphs ∧ paragraphs ≤ 20 then 15
       else if 1 ≤ paragraphs then 10 else 0)
    clampScore score

/-- Embeds `calculateKeywordOptimizationScore` (seoMetrics.ts 227-256).  The float
factors `0.5`, `2`, `0.2`, `3` are the exact rationals `1/2`, `2`, `1/5`,
`3` (IEEE evaluation differs from the rationals only below the two-decimal
granularity of the stored densities, never at a band boundary reachable by a
two-decimal value). -/
def calculateKeywordOptimizationScore (keywords : List KeywordStatE) : Nat :=
  if keywords = [] then 0
  else
    let densityScore :=
      (keywords.take 5).enum.foldl (fun acc p =>
        let ideal : ℚ := if p.1 = 0 then 2 else 1
        acc +
          (if ideal * (1 / 2) ≤ p.2.density ∧ p.2.density ≤ ideal * 2 then (15 : Int)
           else if ideal * (1 / 5) ≤ p.2.density ∧ p.2.density ≤ ideal * 3 then 10
           else if 0 < p.2.density then 5 else 0)) 0
    let diversity : Int :=
      if 8 ≤ keywords.length then 20
      else if 5 ≤ keywords.length then 15
      else if 3 ≤ keywords.length then 10 else 0
    clampScore (densityScore + diversity)

/-- Embeds `calculateOverallScore` (seoMetrics.ts 261-282): the weighted average
`0.25/0.20/0.35/0.20`, rounded to the nearest integer (half up; for
integer inputs this is exact integer arithmetic over the common denominator
100). -/
def calculateOverallScore (titleScore metaDescriptionScore contentStructureScore keywordOptimizationScore : Nat) : Nat :=
  (25 * titleScore + 20 * metaDescriptionScore + 35 * contentStructureScore +
    20 * keywordOptimizationScore + 50) / 100

/-- The analysis input record. -/
structure SEOInputE where
  title : Str
  content : Str
  metaDescription : Str
  keywords : List Str
  deriving DecidableEq

/-- Embeds `generateRecommendations` (seoMetrics.ts 287-351). -/
def generateRecommendations (input : SEOInputE)
    (titleScore metaDescriptionScore contentStructureScore keywordOptimizationScore : Nat) :
    List Str :=
  (if titleScore < 50 then
    (if input.title.length < 30 then ["タイトルをもう少し詳しく（30文字以上）してください".data] else []) ++
    (if input.title.length > 80 then ["タイトルを80文字以内に短縮してください".data] else []) ++
    (if ¬ input.title.any (fun c => '0' ≤ c ∧ c ≤ '9') then
      ["タイトルに具体的な数字を含めることを検討してください".data] else [])
  else []) ++
  (if metaDescriptionScore < 50 then
    (if input.metaDescription.length < 120 then
      ["メタディスクリプションをより詳しく（120文字以上）してください".data] else []) ++
    (if input.metaDescription.length > 180 then
      ["メタディスクリプションを180文字以内に短縮してください".data] else []) ++
    (if input.metaDescription = [] then ["メタディスクリプションを設定してください".data] else [])
  else []) ++
  (if contentStructureScore < 50 then
    (if splitWSLen (extractPlainText input.content) < 500 then
      ["記事の文字数を増やしてください（500文字以上推奨）".data] else []) ++
    (if totalHeadings (countHeadings input.content) < 3 then
      ["見出し（H2、H3タグ）を追加して記事を構造化してください".data] else []) ++
    (if (countHeadings input.content).h1 = 0 then
      ["メインタイトル（H1タグ）を設定してください".data] else [])
  else []) ++
  (if keywordOptimizationScore < 50 then
    ["重要なキーワードを適切な頻度で使用してください".data,
     "関連キーワードを記事に含めてキーワードの多様性を高めてください".data]
  else [])

/-- The computed metrics value object (`SEOMetrics`).  The generated `id`
and `calculatedAt` timestamp of the source are ambient-environment values
(random id, wall clock) outside the deterministic computation and are not
part of the embedding. -/
structure SEOMetricsE where
  articleId : Str
  titleLength : Nat
  metaDescriptionLength : Nat
  wordCount : Nat
  headingCount : HeadingCountE
  keywords : List KeywordStatE
  overallScore : Nat
  titleScore : Nat
  metaDescriptionScore : Nat
  contentStructureScore : Nat
  keywordOptimizationScore : Nat
  recommendations : List Str
  deriving DecidableEq

/-- Embeds `analyzeSEO` (seoMetrics.ts 356-400). -/
def analyzeSEO (articleId : Str) (input : SEOInputE) : SEOMetricsE :=
  let plainText := extractPlainText input.content
  let headingCount := countHeadings input.content
  let keywords := analyzeKeywords plainText input.keywords
  let titleScore := calculateTitleScore input.title
  let metaDescriptionScore := calculateMetaDescriptionScore input.metaDescription
  let contentStructureScore := calculateContentStructureScore input.content headingCount
  let keywordOptimizationScore := calculateKeywordOptimizationScore keywords
  let overallScore := calculateOverallScore titleScore metaDescriptionScore
    contentStructureScore keywordOptimizationScore
  { articleId := articleId
    titleLength := input.title.length
    metaDescriptionLength := input.metaDescription.length
    wordCount := splitWSLen plainText
    headingCount := headingCount
    keywords := keywords
    overallScore := overallScore
    titleScore := titleScore
    metaDescriptionScore := metaDescriptionScore
    contentStructureScore := contentStructureScore
    keywordOptimizationScore := keywordOptimizationScore
    recommendations := generateRecommendations input titleScore metaDescriptionScore
      contentStructureScore keywordOptimizationScore }

/-! ### RateLimiter (seoMetrics.ts 1404-1463) -/

/-- A per-model budget (`RATE_LIMITS` entry). -/
structure RateLimit where
  rpm : Nat
  tpm : Int
  deriving DecidableEq

/-- The `RATE_LIMITS` table (seoMetrics.ts 1404-1407). -/
def rateLimits (model : String) : Option RateLimit :=
  if model = "gemini-2.5-pro" then some ⟨2, 32000⟩
  else if model = "gemini-2.5-flash" then some ⟨15, 1000000⟩
  else none

/-- The limiter's mutable state: per-model arrays of request timestamps and
of raw token counts.  Mirroring the source faithfully, the `tokens` arrays
hold the token counts pushed by `recordRequest` — not timestamped samples. -/
structure RLState where
  requests : List (String × List Int)
  tokens : List (String × List Int)
  deriving DecidableEq

/-- Read a per-model array, defaulting to the empty array (the source
initialises absent entries with an empty array on access). -/
def getArr (m : List (String × List Int)) (k : String) : List Int :=
  match m.find? (fun p => p.1 = k) with
  | some p => p.2
  | none => []

/-- Write a per-model array (JS property assignment on the state object). -/
def setArr (m : List (String × List Int)) (k : String) (v : List Int) :
    List (String × List Int) :=
  if m.any (fun p => p.1 = k) then
    m.map (fun p => if p.1 = k then (p.1, v) else p)
  else m ++ [(k, v)]

/-- Embeds `RateLimiter.canMakeRequest` (seoMetrics.ts 1432-1451).  Both arrays are
filtered with the same sixty-second window comparison — including the
`tokens` array, whose elements are token counts, exactly as in the source.
Returns the admission decision together with the updated state. -/
def canMakeRequest (st : RLState) (model : String) (estimatedTokens now : Int) :
    Bool × RLState :=
  let oneMinute : Int := 60 * 1000
  let reqs := (getArr st.requests model).filter (fun time => now - time < oneMinute)
  let toks := (getArr st.tokens model).filter (fun time => now - time < oneMinute)
  let st' : RLState := ⟨setArr st.requests model reqs, setArr st.tokens model toks⟩
  match rateLimits model with
  | none => (false, st')
  | some limits =>
    (decide ((reqs.length : Nat) < limits.rpm) &&
      decide (toks.foldl (· + ·) 0 + estimatedTokens < limits.tpm), st')

/-- Embeds `RateLimiter.recordRequest` (seoMetrics.ts 1453-1460): appends the
current time to the request array and the token count to the token array;
no pruning. -/
def recordRequest (st : RLState) (model : String) (tokens now : Int) : RLState :=
  ⟨setArr st.requests model (getArr st.requests model ++ [now]),
   setArr st.tokens model (getArr st.tokens model ++ [tokens])⟩

/-- Modelled from the spec: the admission contract of §4.1 — token samples
carry their recording time, and admission demands that the windowed request
count stay below the requests-per-minute budget and that the windowed token
sum plus the estimate stay below the tokens-per-minute budget; unknown
models are refused.  (The source stores no timestamps with its token
samples, which is what claim C1 is measured against.) -/
def admitSpec (reqTimes : List Int) (tokSamples : List (Int × Int)) (model : String)
    (estimatedTokens now : Int) : Bool :=
  match rateLimits model with
  | none => false
  | some limits =>
    let windowReqs := reqTimes.filter (fun t => now - t < 60000)
    let windowToks := (tokSamples.filter (fun p => now - p.1 < 60000)).map (·.2)
    decide ((windowReqs.length : Nat) < limits.rpm) &&
      decide (windowToks.foldl (· + ·) 0 + estimatedTokens < limits.tpm)

/-! ### HistoryStore (seoMetrics.ts 2045-2217) -/

/-- Publication status of a linked article. -/
inductive ArticleStatus where
  | draft
  | ready_to_publish
  | published
  deriving DecidableEq

/-- A linked resulting article. -/
structure ArticleRef where
  articleId : String
  title : String
  status : ArticleStatus
  createdAt : String
  deriving DecidableEq

/-- A stored history record (`PromptHistory`).  `generatedAt` is the epoch
time in milliseconds (the ISO string of the source is only ever consumed
through `new Date(...).getTime()`); the optional file/temperature/rating
fields play no role in the verified operations. -/
structure PromptRec where
  id : String
  originalPrompt : String
  userInput : String
  modelUsed : String
  generatedAt : Int
  resultingArticles : List ArticleRef
  tokensUsed : Int
  estimatedCost : ℚ
  siteId : String
  deriving DecidableEq

/-- The store state: the record list (most recent first) together with the
module-level dedup cache `lastPromptHistoryId` / `lastPromptTimestamp`. -/
structure HistState where
  history : List PromptRec
  lastId : Option String
  lastTs : Int
  deriving DecidableEq

/-- The request data consumed by `addPromptHistory`. -/
structure HistData where
  originalPrompt : String
  userInput : String
  modelUsed : String
  suggestion : SuggestionE
  tokensUsed : Int
  estimatedCost : ℚ
  siteId : String
  deriving DecidableEq

/-- The fresh record constructed by `addPromptHistory` (seoMetrics.ts
2132-2148); `freshId` stands for the generated random id and `now` for the
creation instant. -/
def mkRec (d : HistData) (now : Int) (freshId : String) : PromptRec :=
  { id := freshId
    originalPrompt := d.originalPrompt
    userInput := d.userInput
    modelUsed := d.modelUsed
    generatedAt := now
    resultingArticles := []
    tokensUsed := d.tokensUsed
    estimatedCost := d.estimatedCost
    siteId := d.siteId }

/-- The five-second immediate-repeat guard of `addPromptHistory`
(seoMetrics.ts 2101-2113): when the cache timestamp is positive and less
than five seconds old, look the cached id up in the store. -/
def cachedHit (st : HistState) (now : Int) : Option PromptRec :=
  if st.lastTs > 0 ∧ now - st.lastTs < 5000 then
    match st.lastId with
    | some lid => st.history.find? (fun item => item.id = lid)
    | none => none
  else none

/-- The thirty-second fingerprint scan of `addPromptHistory`
(seoMetrics.ts 2117-2123). -/
def recentHit (st : HistState) (d : HistData) (now : Int) : Option PromptRec :=
  st.history.find? (fun item =>
    item.originalPrompt = d.originalPrompt ∧ item.siteId = d.siteId ∧
    item.modelUsed = d.modelUsed ∧ now - item.generatedAt < 30000)

/-- Embeds `addPromptHistory` (seoMetrics.ts 2081-2159): the five-second
immediate-repeat guard against the cached previous record, then the
thirty-second fingerprint scan, then construction and prepending of a fresh
record.  Returns the resulting record and the new state. -/
def addPromptHistory (st : HistState) (d : HistData) (now : Int) (freshId : String) :
    PromptRec × HistState :=
  match cachedHit st now with
  | some existing => (existing, st)
  | none =>
    match recentHit st d now with
    | some recent => (recent, ⟨st.history, some recent.id, now⟩)
    | none =>
      let newRec := mkRec d now freshId
      (newRec, ⟨newRec :: st.history, some newRec.id, now⟩)

/-- Embeds `addResultingArticle` (seoMetrics.ts 2192-2217): find the first record
with the given id (JS `findIndex` + in-place update); append the article
reference unless its `articleId` is already present.  Returns the success
flag and the updated record list. -/
def addResultingArticle : List PromptRec → String → ArticleRef → Bool × List PromptRec
  | [], _, _ => (false, [])
  | r :: rest, promptId, article =>
    if r.id = promptId then
      if r.resultingArticles.any (fun existing => existing.articleId = article.articleId) then
        (true, r :: rest)
      else
        (true, { r with resultingArticles := r.resultingArticles ++ [article] } :: rest)
    else
      let p := addResultingArticle rest promptId article
      (p.1, r :: p.2)

/-- A sequence of link calls, applied in order. -/
def linkMany (history : List PromptRec) (calls : List (String × ArticleRef)) :
    List PromptRec :=
  calls.foldl (fun h c => (addResultingArticle h c.1 c.2).2) history

/-! ### Shared lemmas -/

/-- Reading back the per-model array just written. -/
theorem getArr_setArr (m : List (String × List Int)) (k : String) (v : List Int) :
    getArr (setArr m k v) k = v := by
  unfold setArr
  split
  · next hany =>
    unfold getArr
    induction m with
    | nil => simp at hany
    | cons p rest ih =>
      by_cases hp : p.1 = k
      · simp [List.find?, hp]
      · simp only [List.any_cons] at hany
        rcases Bool.or_eq_true_iff.mp hany with h | h
        · exact absurd (of_decide_eq_true h) hp
        · simpa [List.find?, hp] using ih h
  · next hany =>
    unfold getArr
    induction m with
    | nil => simp [List.find?]
    | cons p rest ih =>
      simp only [List.any_cons, Bool.or_eq_true_iff, not_or] at hany
      have hp : ¬ p.1 = k := fun h => hany.1 (decide_eq_true h)
      simpa [List.find?, hp] using ih hany.2

/-! ### C1 -/

/-- The rate-limiter state after recording one 31000-token request for the
pro model at time 99000 (milliseconds). -/
def c1State : RLState := recordRequest ⟨[], []⟩ "gemini-2.5-pro" 31000 99000

/-- C1 (failing input): one second after a 31000-token request was recorded
for `gemini-2.5-pro`, an admission query estimating 1001 further tokens is
admitted by the source (the window filter, applied to raw token counts,
discards the in-window 31000-token sample), while the claimed contract —
windowed token sum plus estimate strictly below the 32000-token budget —
refuses it, as 31000 + 1001 ≥ 32000. -/
theorem rateLimiter_token_filter_code_bug :
    (canMakeRequest c1State "gemini-2.5-pro" 1001 100000).1 = true ∧
    admitSpec [99000] [(99000, 31000)] "gemini-2.5-pro" 1001 100000 = false := by
  decide

/-! ### C2 -/

/-- C2 (counterexample): `recordRequest` does not prune.  Starting from a
state holding a request timestamp 0 for the pro model, a `record` call at
time 100000 returns with the 100-second-old sample still present, so not
every `admit`/`record` call leaves the window free of samples older than
sixty seconds. -/
theorem recordRequest_no_prune_cex :
    (0 : Int) ∈ getArr (recordRequest ⟨[("gemini-2.5-pro", [0])], []⟩
        "gemini-2.5-pro" 500 100000).requests "gemini-2.5-pro" ∧
    ((100000 : Int) - 0 ≥ 60000) := by
  decide

/-- C2 (amended): only `canMakeRequest` prunes.  After any admission call,
the queried model's retained request entries all lie within the sixty-second
window, and the token entries all pass the same sixty-second comparison
(applied to the raw counts the source stores); `recordRequest` merely
appends, so stale samples can survive until the next admission call. -/
theorem canMakeRequest_prunes (st : RLState) (model : String) (est now : Int) :
    (∀ t ∈ getArr ((canMakeRequest st model est now).2).requests model,
      now - t < 60000) ∧
    (∀ t ∈ getArr ((canMakeRequest st model est now).2).tokens model,
      now - t < 60000) := by
  have hsnd : ((canMakeRequest st model est now).2) =
      ⟨setArr st.requests model
        ((getArr st.requests model).filter (fun time => now - time < 60 * 1000)),
       setArr st.tokens model
        ((getArr st.tokens model).filter (fun time => now - time < 60 * 1000))⟩ := by
    unfold canMakeRequest
    cases rateLimits model <;> rfl
  rw [hsnd]
  constructor
  · intro t ht
    rw [getArr_setArr] at ht
    have := (List.mem_filter.mp ht).2
    simpa using of_decide_eq_true this
  · intro t ht
    rw [getArr_setArr] at ht
    have := (List.mem_filter.mp ht).2
    simpa using of_decide_eq_true this

/-- C2 (witness): the pruning statement applied to a concrete state holding
one fresh and one stale request sample. -/
theorem canMakeRequest_prunes_witness :
    (100000 : Int) - 99000 < 60000 :=
  (canMakeRequest_prunes ⟨[("gemini-2.5-pro", [0, 99000])], []⟩
    "gemini-2.5-pro" 10 100000).1 99000 (by decide)

/-! ### C4 -/

/-- The worked-example input of the specification (title line, meta
description line, category line, tag line, horizontal rule, two level-2
headings). -/
def workedExample : Str :=
  ("# 初心者向けSEOガイド\n\n**メタディスクリプション:** (150-char string)\n\n" ++
   "**推奨カテゴリー:** SEO, マーケティング\n**推奨タグ:** SEO, 初心者, ガイド\n\n---\n\n" ++
   "## SEOとは\n説明文\n\n## 実践方法\n手順の説明").data

/-- C4: on the worked example the parser extracts exactly the specified
title, new-category list, new-tag list, and level-2 headings in document
order. -/
theorem parse_worked_example :
    (parseMarkdownArticle workedExample).titles = ["初心者向けSEOガイド".data] ∧
    (parseMarkdownArticle workedExample).categories.new =
      ["SEO".data, "マーケティング".data] ∧
    (parseMarkdownArticle workedExample).tags.new =
      ["SEO".data, "初心者".data, "ガイド".data] ∧
    (parseMarkdownArticle workedExample).headings.map (fun h => (h.level, h.text)) =
      [(2, "SEOとは".data), (2, "実践方法".data)] := by
  decide

/-! ### C5 -/

/-- A body whose last heading-delimited section carries a trailing newline
(no horizontal rule, so the body is the raw input and is not trimmed). -/
def c5Input : Str := "a\n\n## B\nc\n".data

/-- C5 (counterexample): on `c5Input` the last body section is the
untrimmed tail `B`, newline, `c`, newline, while the parsed conclusion is
its trimmed form — which is not a tail slice (suffix) of that section, so
the conclusion is not in general a tail slice of the last body section. -/
theorem parse_conclusion_not_tail_slice_cex :
    (parseMarkdownArticle c5Input).fullArticle.map
        (fun fa => fa.conclusion.isSuffixOf ((bodySections c5Input).getLastD [])) =
      some false ∧
    (bodySections c5Input).length > 1 := by
  decide

/-- C5 (amended): for every input, the parsed full-article fields are:
the introduction is the first at-most-300 characters of the trimmed text
preceding the first body heading; the main content is the whole body text
unsegmented; and the conclusion is empty when the body has no
heading-delimited sections and otherwise equals the entire trimmed last
section (the source's negative substring start clamps to zero, so the
conclusion is a tail slice only of the trimmed last section, namely the
whole of it). -/
theorem parse_fullArticle_segments (text : Str) :
    ((parseMarkdownArticle text).fullArticle.map FullArticleE.introduction =
      some ((jsTrim ((bodySections text).headD [])).take 300)) ∧
    (∀ fa, (parseMarkdownArticle text).fullArticle = some fa →
      fa.introduction.length ≤ 300) ∧
    ((parseMarkdownArticle text).fullArticle.map FullArticleE.mainContent =
      some (fullContentOf text)) ∧
    ((bodySections text).length ≤ 1 →
      (parseMarkdownArticle text).fullArticle.map FullArticleE.conclusion = some []) ∧
    ((bodySections text).length > 1 →
      (parseMarkdownArticle text).fullArticle.map FullArticleE.conclusion =
        some (jsTrim ((bodySections text).getLastD []))) := by
  refine ⟨rfl, ?_, rfl, ?_, ?_⟩
  · intro fa hfa
    have h1 : fa.introduction = (jsTrim ((bodySections text).headD [])).take 300 := by
      simpa [parseMarkdownArticle, bodySections] using congrArg (Option.map FullArticleE.introduction) hfa |>.symm
    rw [h1]
    exact List.length_take_le 300 _
  · intro hle
    simp only [parseMarkdownArticle, bodySections, Option.map_some']
    have : ¬ ((splitSections (fullContentOf text)).length > 1) := by
      simpa [bodySections] using Nat.not_lt.mpr hle
    simp [this]
  · intro hgt
    simp only [parseMarkdownArticle, bodySections, Option.map_some']
    have : (splitSections (fullContentOf text)).length > 1 := by
      simpa [bodySections] using hgt
    simp [this]

/-- C5 (witness): the amended statement applied to the concrete input with
two body sections. -/
theorem parse_fullArticle_segments_witness :
    (parseMarkdownArticle c5Input).fullArticle.map FullArticleE.conclusion =
      some (jsTrim ((bodySections c5Input).getLastD [])) :=
  (parse_fullArticle_segments c5Input).2.2.2.2 (by decide)

/-! ### C3 -/

/-- Every match produced by the heading pattern carries a hash count between
two and six. -/
theorem headingAt_level_bounds (s : Str) (lvl : Nat) (run rest : Str)
    (h : headingAt s = some (lvl, run, rest)) : 2 ≤ lvl ∧ lvl ≤ 6 := by
  unfold headingAt at h
  dsimp only at h
  split at h
  · next hcond =>
    cases hmap : wsPlusLine (s.drop (s.takeWhile (· = '#')).length)
        (wsRunLen (s.drop (s.takeWhile (· = '#')).length)) with
    | none => rw [hmap] at h; simp at h
    | some p =>
      rw [hmap] at h
      simp only [Option.map_some'] at h
      cases h
      exact hcond
  · simp at h

/-- Every heading collected by the global scan has level between two and
six. -/
theorem scanHeadingsF_level_bounds (fuel : Nat) (s : Str) (p : Nat × Str)
    (hp : p ∈ scanHeadingsF fuel s) : 2 ≤ p.1 ∧ p.1 ≤ 6 := by
  induction fuel generalizing s with
  | zero => simp [scanHeadingsF] at hp
  | succ n ih =>
    simp only [scanHeadingsF] at hp
    cases hattempt : headingAt s with
    | none =>
      rw [hattempt] at hp
      cases s with
      | nil => simp at hp
      | cons c rest => exact ih _ hp
    | some t =>
      obtain ⟨lvl, run, rem⟩ := t
      rw [hattempt] at hp
      rcases List.mem_cons.mp hp with h | h
      · subst h
        exact headingAt_level_bounds _ _ _ _ hattempt
      · exact ih _ h

/-- C3: the parser is a total function (the embedding carries no partiality
and the source's catch-all branch is unreachable), it always returns a
structurally valid suggestion — exactly one title, at most one meta
description, a present full article, and headings whose levels lie in the
two-to-six band with non-empty synthesised descriptions — and whenever the
horizontal-rule delimiter pattern matches nowhere in the input, the
full-article main content is the raw input verbatim. -/
theorem parse_total_and_verbatim (text : Str) :
    (parseMarkdownArticle text).titles.length = 1 ∧
    (parseMarkdownArticle text).metaDescriptions.length ≤ 1 ∧
    (parseMarkdownArticle text).fullArticle ≠ none ∧
    (∀ h ∈ (parseMarkdownArticle text).headings,
      2 ≤ h.level ∧ h.level ≤ 6 ∧ h.description ≠ []) ∧
    (containsDelim text = false →
      (parseMarkdownArticle text).fullArticle.map FullArticleE.mainContent = some text) := by
  refine ⟨rfl, ?_, by simp [parseMarkdownArticle], ?_, ?_⟩
  · simp only [parseMarkdownArticle]
    split <;> simp
  · intro h hh
    simp only [parseMarkdownArticle, List.mem_map] at hh
    obtain ⟨p, hpmem, hpeq⟩ := hh
    have hb := scanHeadingsF_level_bounds _ _ _ hpmem
    subst hpeq
    refine ⟨hb.1, hb.2, ?_⟩
    simp
  · intro hnone
    have hd : findDelim text = none := by
      unfold containsDelim at hnone
      exact Option.not_isSome_iff_eq_none.mp (by simp [hnone])
    simp [parseMarkdownArticle, fullContentOf, hd]

/-- C3 (witness): the statement applied to a concrete delimiter-free
input. -/
theorem parse_total_and_verbatim_witness :
    (parseMarkdownArticle "hello world".data).fullArticle.map FullArticleE.mainContent =
      some "hello world".data :=
  (parse_total_and_verbatim "hello world".data).2.2.2.2 (by decide)

/-! ### C6 -/

/-- The final clamp confines every sub-score to the unit-percentage band. -/
theorem clampScore_le (x : Int) : clampScore x ≤ 100 := by
  unfold clampScore
  omega

/-- The title sub-score is at most one hundred. -/
theorem calculateTitleScore_le (title : Str) : calculateTitleScore title ≤ 100 := by
  unfold calculateTitleScore
  split
  · omega
  · exact clampScore_le _

/-- The meta-description sub-score is at most one hundred. -/
theorem calculateMetaDescriptionScore_le (md : Str) :
    calculateMetaDescriptionScore md ≤ 100 := by
  unfold calculateMetaDescriptionScore
  split
  · omega
  · exact clampScore_le _

/-- The content-structure sub-score is at most one hundred. -/
theorem calculateContentStructureScore_le (content : Str) (hc : HeadingCountE) :
    calculateContentStructureScore content hc ≤ 100 := by
  unfold calculateContentStructureScore
  split
  · omega
  · exact clampScore_le _

/-- The keyword-optimisation sub-score is at most one hundred. -/
theorem calculateKeywordOptimizationScore_le (ks : List KeywordStatE) :
    calculateKeywordOptimizationScore ks ≤ 100 := by
  unfold calculateKeywordOptimizationScore
  split
  · omega
  · exact clampScore_le _

/-- C6: for every article id and every input — title, content, meta
description and optional target keywords — the analysis returns (the
embedding is total) an overall score that is a natural number at most one
hundred; and when the three text fields are all empty the overall score is
zero for every keyword list. -/
theorem analyzeSEO_overall_bounds (articleId : Str) (input : SEOInputE) :
    (analyzeSEO articleId input).overallScore ≤ 100 ∧
    (analyzeSEO articleId ⟨[], [], [], input.keywords⟩).overallScore = 0 := by
  constructor
  · have h1 := calculateTitleScore_le input.title
    have h2 := calculateMetaDescriptionScore_le input.metaDescription
    have h3 := calculateContentStructureScore_le input.content (countHeadings input.content)
    have h4 := calculateKeywordOptimizationScore_le
      (analyzeKeywords (extractPlainText input.content) input.keywords)
    show calculateOverallScore _ _ _ _ ≤ 100
    unfold calculateOverallScore
    have hnum : 25 * calculateTitleScore input.title +
        20 * calculateMetaDescriptionScore input.metaDescription +
        35 * calculateContentStructureScore input.content (countHeadings input.content) +
        20 * calculateKeywordOptimizationScore
          (analyzeKeywords (extractPlainText input.content) input.keywords) + 50 ≤ 10050 := by
      omega
    calc _ ≤ 10050 / 100 := Nat.div_le_div_right hnum
    _ = 100 := by norm_num
  · have hk : analyzeKeywords (extractPlainText []) input.keywords = [] := rfl
    show calculateOverallScore (calculateTitleScore []) (calculateMetaDescriptionScore [])
      (calculateContentStructureScore [] (countHeadings []))
      (calculateKeywordOptimizationScore (analyzeKeywords (extractPlainText [])
        input.keywords)) = 0
    rw [hk]
    decide

/-! ### C7 -/

/-- When a call to `addPromptHistory` grows the store, it took the insert
branch: the result is the freshly constructed record prepended, and the
cache points at it. -/
theorem addPromptHistory_insert_shape (st : HistState) (d : HistData) (now : Int)
    (freshId : String)
    (h : ((addPromptHistory st d now freshId).2).history.length = st.history.length + 1) :
    addPromptHistory st d now freshId =
      (mkRec d now freshId,
        ⟨mkRec d now freshId :: st.history, some freshId, now⟩) := by
  cases hc : cachedHit st now with
  | some existing => simp [addPromptHistory, hc] at h
  | none =>
    cases hr : recentHit st d now with
    | some recent => simp [addPromptHistory, hc, hr] at h
    | none => simp [addPromptHistory, hc, hr, mkRec]

/-- C7: if a first `addRecord` call at time `t₁` actually inserts (grows the
store by one), then a second call with the same data — hence the same
`(originalPrompt, siteId, modelUsed)` fingerprint — performed within thirty
seconds returns that very record, leaves the record list unchanged, and the
net growth across the two calls is exactly one.  (Within five seconds the
immediate-repeat cache answers; otherwise the fingerprint scan finds the
prepended record at the head of the list.) -/
theorem addRecord_dedup_within_30s (st : HistState) (d : HistData) (t1 t2 : Int)
    (id1 id2 : String)
    (hins : ((addPromptHistory st d t1 id1).2).history.length = st.history.length + 1)
    (hwin : t2 - t1 < 30000) :
    (addPromptHistory ((addPromptHistory st d t1 id1).2) d t2 id2).1 =
      (addPromptHistory st d t1 id1).1 ∧
    ((addPromptHistory ((addPromptHistory st d t1 id1).2) d t2 id2).2).history =
      ((addPromptHistory st d t1 id1).2).history ∧
    ((addPromptHistory ((addPromptHistory st d t1 id1).2) d t2 id2).2).history.length =
      st.history.length + 1 := by
  have hshape := addPromptHistory_insert_shape st d t1 id1 hins
  rw [hshape]
  set st1 : HistState := ⟨mkRec d t1 id1 :: st.history, some id1, t1⟩ with hst1
  by_cases hfast : t1 > 0 ∧ t2 - t1 < 5000
  · have hc : cachedHit st1 t2 = some (mkRec d t1 id1) := by
      simp [cachedHit, hst1, hfast, List.find?, mkRec]
    simp [addPromptHistory, hc, hst1]
  · have hc : cachedHit st1 t2 = none := by
      simp only [cachedHit, hst1]
      rw [if_neg (by simpa [hst1] using hfast)]
    have hr : recentHit st1 d t2 = some (mkRec d t1 id1) := by
      simp [recentHit, hst1, List.find?, mkRec, hwin]
    simp [addPromptHistory, hc, hr, hst1]

/-- A concrete request datum for witnesses. -/
def c7Data : HistData :=
  { originalPrompt := "write about seo"
    userInput := "seo"
    modelUsed := "gemini-2.5-pro"
    suggestion := parseMarkdownArticle []
    tokensUsed := 100
    estimatedCost := 0
    siteId := "site-1"
    : HistData }

/-- C7 (witness): from the empty store, the first call at one second
inserts, and the second identical call one second later returns the same
record without growing the store. -/
theorem addRecord_dedup_within_30s_witness :
    (addPromptHistory ((addPromptHistory ⟨[], none, 0⟩ c7Data 1000 "p1").2)
        c7Data 2000 "p2").1 =
      (addPromptHistory ⟨[], none, 0⟩ c7Data 1000 "p1").1 :=
  (addRecord_dedup_within_30s ⟨[], none, 0⟩ c7Data 1000 2000 "p1" "p2"
    (by decide) (by decide)).1

/-! ### C8 -/

/-- C8: for every main content whose paragraph list is non-empty and every
non-empty heading list, the reconstructor produces exactly one contiguous
position-based group per heading: group `i` holds paragraphs
`i·k` through `i·k + k - 1` (clamped to the paragraph count) for the ceiling
quotient `k`, joined with blank lines; and for every heading whose group is
empty, the per-heading block emitted by `formatFullArticleToHTML` carries
the paragraph-formatted synthesised description of that heading instead of
group content. -/
theorem materialize_positional_split (mainContent : Str) (hs : List HeadingE)
    (_hhs : hs ≠ []) (hpar : paragraphsOf mainContent ≠ []) :
    (splitContentByHeadings mainContent hs).length = hs.length ∧
    (∀ i, i < hs.length →
      (splitContentByHeadings mainContent hs).getD i [] =
        List.intercalate "\n\n".data
          (((paragraphsOf mainContent).drop
            (i * (((paragraphsOf mainContent).length + hs.length - 1) / hs.length))).take
            (((paragraphsOf mainContent).length + hs.length - 1) / hs.length))) ∧
    (∀ i, i < hs.length →
      ((paragraphsOf mainContent).drop
          (i * (((paragraphsOf mainContent).length + hs.length - 1) / hs.length))).take
          (((paragraphsOf mainContent).length + hs.length - 1) / hs.length) = [] →
      headingBlock (hs.getD i ⟨0, [], []⟩)
          ((splitContentByHeadings mainContent hs).getD i []) =
        "<h".data ++ (toString (hs.getD i ⟨0, [], []⟩).level).data ++ ">".data ++
          (hs.getD i ⟨0, [], []⟩).text ++
          "</h".data ++ (toString (hs.getD i ⟨0, [], []⟩).level).data ++ ">".data ++
          "\n".data ++
          formatTextToParagraphs (hs.getD i ⟨0, [], []⟩).description ++ "\n\n".data) := by
  have hplen : ¬ ((paragraphsOf mainContent).length = 0) := by
    simpa [List.length_eq_zero] using hpar
  have hsplit : splitContentByHeadings mainContent hs =
      (List.range hs.length).map (fun i =>
        List.intercalate "\n\n".data
          (((paragraphsOf mainContent).drop
            (i * (((paragraphsOf mainContent).length + hs.length - 1) / hs.length))).take
            (((paragraphsOf mainContent).length + hs.length - 1) / hs.length))) := by
    unfold splitContentByHeadings
    rw [if_neg hplen]
  have hget : ∀ i, i < hs.length →
      (splitContentByHeadings mainContent hs).getD i [] =
        List.intercalate "\n\n".data
          (((paragraphsOf mainContent).drop
            (i * (((paragraphsOf mainContent).length + hs.length - 1) / hs.length))).take
            (((paragraphsOf mainContent).length + hs.length - 1) / hs.length)) := by
    intro i hi
    rw [hsplit]
    rw [List.getD_eq_getElem?_getD]
    rw [List.getElem?_map]
    simp [List.getElem?_range hi]
  refine ⟨by rw [hsplit]; simp, hget, ?_⟩
  intro i hi hempty
  rw [hget i hi, hempty]
  unfold headingBlock
  simp [List.intercalate]

/-- C8 (witness): one paragraph allocated to three headings — group sizes
follow the ceiling division, and the block for the third (empty) group is
the description text. -/
theorem materialize_positional_split_witness :
    (splitContentByHeadings "p1".data
      [⟨2, "A".data, "dA".data⟩, ⟨2, "B".data, "dB".data⟩, ⟨3, "C".data, "dC".data⟩]).length = 3 ∧
    headingBlock ⟨3, "C".data, "dC".data⟩
        ((splitContentByHeadings "p1".data
          [⟨2, "A".data, "dA".data⟩, ⟨2, "B".data, "dB".data⟩,
           ⟨3, "C".data, "dC".data⟩]).getD 2 []) =
      ("<h3>C</h3>\n<p>dC</p>\n\n").data := by
  refine ⟨?_, ?_⟩
  · exact (materialize_positional_split "p1".data
      [⟨2, "A".data, "dA".data⟩, ⟨2, "B".data, "dB".data⟩, ⟨3, "C".data, "dC".data⟩]
      (by decide) (by decide)).1
  · have h := (materialize_positional_split "p1".data
      [⟨2, "A".data, "dA".data⟩, ⟨2, "B".data, "dB".data⟩, ⟨3, "C".data, "dC".data⟩]
      (by decide) (by decide)).2.2 2 (by decide) (by decide)
    rw [show ([⟨2, "A".data, "dA".data⟩, ⟨2, "B".data, "dB".data⟩,
      ⟨3, "C".data, "dC".data⟩] : List HeadingE).getD 2 ⟨0, [], []⟩ =
        ⟨3, "C".data, "dC".data⟩ from rfl] at h
    rw [h]
    decide

/-! ### C9 -/

/-- The store-wide invariant: no record links two articles with the same
article id. -/
def nodupArticleIds (history : List PromptRec) : Prop :=
  ∀ r ∈ history, (r.resultingArticles.map (fun a => a.articleId)).Nodup

/-- A link call preserves the no-duplicate invariant: the only mutation is
an append guarded by the absence test on the article id. -/
theorem addResultingArticle_preserves_nodup (history : List PromptRec)
    (promptId : String) (article : ArticleRef) (h : nodupArticleIds history) :
    nodupArticleIds (addResultingArticle history promptId article).2 := by
  induction history with
  | nil => simpa [addResultingArticle] using h
  | cons r rest ih =>
    have hr := h r (List.mem_cons_self r rest)
    have hrest : nodupArticleIds rest := fun x hx => h x (List.mem_cons_of_mem r hx)
    unfold addResultingArticle
    by_cases hid : r.id = promptId
    · rw [if_pos hid]
      by_cases hexists : r.resultingArticles.any
          (fun existing => existing.articleId = article.articleId)
      · rw [if_pos hexists]
        exact h
      · rw [if_neg hexists]
        intro x hx
        rcases List.mem_cons.mp hx with hx | hx
        · subst hx
          simp only [List.map_append, List.map_cons, List.map_nil]
          rw [List.nodup_append]
          refine ⟨hr, List.nodup_singleton _, ?_⟩
          intro a ha
          simp only [List.mem_singleton]
          intro hb
          subst hb
          obtain ⟨e, he, heq⟩ := List.mem_map.mp ha
          exact absurd (List.any_eq_true.mpr ⟨e, he, decide_eq_true heq⟩) hexists
        · exact hrest x hx
    · rw [if_neg hid]
      intro x hx
      rcases List.mem_cons.mp hx with hx | hx
      · subst hx; exact hr
      · exact ih hrest x hx

/-- C9: linking is an idempotent append — when the first record carrying the
target id already links the article id, the store is returned unchanged —
and consequently, starting from any store satisfying the invariant, any
sequence of link calls leaves every record free of duplicate article
ids. -/
theorem linkArticle_idempotent_nodup (history : List PromptRec) :
    (∀ r promptId article, history.find? (fun x => x.id = promptId) = some r →
      r.resultingArticles.any (fun e => e.articleId = article.articleId) = true →
      (addResultingArticle history promptId article).2 = history) ∧
    (nodupArticleIds history →
      ∀ calls, nodupArticleIds (linkMany history calls)) := by
  constructor
  · intro r promptId article hfind hany
    induction history with
    | nil => simp [List.find?] at hfind
    | cons x rest ih =>
      by_cases hid : x.id = promptId
      · have hx : x = r := by
          have : (x :: rest).find? (fun y => y.id = promptId) = some x := by
            simp [List.find?, hid]
          rw [this] at hfind
          exact (Option.some.injEq _ _).mp hfind
        subst hx
        unfold addResultingArticle
        rw [if_pos hid, if_pos hany]
      · have hfind' : rest.find? (fun y => y.id = promptId) = some r := by
          simpa [List.find?, hid] using hfind
        unfold addResultingArticle
        rw [if_neg hid]
        simp [ih hfind']
  · intro hinv calls
    induction calls generalizing history with
    | nil => simpa [linkMany] using hinv
    | cons c cs ih =>
      have step := addResultingArticle_preserves_nodup history c.1 c.2 hinv
      simpa [linkMany, List.foldl_cons] using ih _ step

/-- A concrete linked store for the C9 witness. -/
def c9Article : ArticleRef := ⟨"a1", "Article", ArticleStatus.draft, "2024-01-01"⟩

/-- A one-record store already linking `c9Article`. -/
def c9History : List PromptRec :=
  [{ (mkRec c7Data 1000 "p1") with resultingArticles := [c9Article] }]

/-- C9 (witness): re-linking the already-present article id leaves the
concrete store unchanged. -/
theorem linkArticle_idempotent_nodup_witness :
    (addResultingArticle c9History "p1" c9Article).2 = c9History :=
  (linkArticle_idempotent_nodup c9History).1
    ({ (mkRec c7Data 1000 "p1") with resultingArticles := [c9Article] }) "p1" c9Article
    (by decide) (by decide)

/-! ### C10 -/

/-- Sixteen target keywords whose last entry is the two-character word
`ab`. -/
def c10Kws : List Str :=
  (["k01", "k02", "k03", "k04", "k05", "k06", "k07", "k08", "k09", "k10",
    "k11", "k12", "k13", "k14", "k15"].map String.data) ++ ["ab".data]

/-- A text in which the two-character word occurs. -/
def c10Text : Str := "ab xx yy".data

/-- C10 (counterexample): the keyword analysis caps its output at fifteen
entries, so the sixteenth target keyword — the two-character word `ab`,
which does occur in the text — is not reported at all (no entry carries the
term), contradicting the claim that every short target keyword is reported
with zero frequency and density for every text and target list. -/
theorem analyzeKeywords_short_target_dropped_cex :
    ((analyzeKeywords c10Text c10Kws).filter (fun e => e.term = "ab".data)) = [] ∧
    "ab".data ∈ wordRuns (lowerStr c10Text) ∧
    (lowerStr "ab".data).length < 3 := by
  decide

/-- Every key of the frequency table is a token of length at least three. -/
theorem wordCountsOf_keys_long (words : List Str) :
    ∀ p ∈ wordCountsOf words, 3 ≤ p.1.length := by
  unfold wordCountsOf
  suffices h : ∀ acc, (∀ p ∈ acc, 3 ≤ p.1.length) →
      ∀ p ∈ words.foldl (fun m w => if w.length ≥ 3 then bumpWord m w else m) acc,
        3 ≤ p.1.length by
    exact h [] (by simp)
  induction words with
  | nil => intro acc hacc; simpa using hacc
  | cons w ws ih =>
    intro acc hacc
    simp only [List.foldl_cons]
    apply ih
    by_cases hw : w.length ≥ 3
    · rw [if_pos hw]
      intro p hp
      unfold bumpWord at hp
      split at hp
      · obtain ⟨q, hq, hqe⟩ := List.mem_map.mp hp
        have : p.1 = q.1 := by
          by_cases hqw : q.1 = w
          · rw [if_pos hqw] at hqe; rw [← hqe]
          · rw [if_neg hqw] at hqe; rw [← hqe]
        rw [this]
        exact hacc q hq
      · rcases List.mem_append.mp hp with h | h
        · exact hacc p h
        · have : p = (w, 1) := by simpa using h
          rw [this]
          exact hw
    · rw [if_neg hw]
      exact hacc

/-- Looking up a key shorter than three characters in the frequency table
yields zero. -/
theorem lookupCount_short (words : List Str) (k : Str) (hk : k.length < 3) :
    lookupCount (wordCountsOf words) k = 0 := by
  unfold lookupCount
  cases hf : (wordCountsOf words).find? (fun p => p.1 = k) with
  | none => rfl
  | some p =>
    have hmem := List.mem_of_find?_eq_some hf
    have hpk : p.1 = k := by
      have := List.find?_some hf
      exact of_decide_eq_true this
    have := wordCountsOf_keys_long words p hmem
    rw [hpk] at this
    omega

/-- Zero frequency always yields a zero density. -/
theorem densityOf_zero (total : Nat) : densityOf 0 total = 0 := by
  unfold densityOf round2
  split
  · norm_num
  · rfl

/-- C10 (amended): for every non-empty text, every target-keyword list, and
every position `i` below both the list length and the fifteen-entry cap, if
the lowercased keyword at position `i` is shorter than three characters then
the analysis reports it at position `i` with frequency zero and density zero
— even when the word occurs in the text, because only tokens of length at
least three enter the frequency table (while the density denominator counts
all tokens of length at least two). -/
theorem analyzeKeywords_short_target_zero (text : Str) (kws : List Str) (i : Nat)
    (hlen : i < kws.length) (htext : text ≠ []) (hcap : i < 15)
    (hshort : (lowerStr (kws.get ⟨i, hlen⟩)).length < 3) :
    (analyzeKeywords text kws).getD i ⟨[], 0, 0⟩ =
      ⟨kws.get ⟨i, hlen⟩, 0, 0⟩ := by
  unfold analyzeKeywords
  rw [if_neg htext]
  have hmaplen : i < (kws.map (fun kw =>
      ({ term := kw,
         frequency := lookupCount (wordCountsOf (wordRuns (lowerStr text))) (lowerStr kw),
         density := densityOf
           (lookupCount (wordCountsOf (wordRuns (lowerStr text))) (lowerStr kw))
           (wordRuns (lowerStr text)).length } : KeywordStatE))).length := by
    simpa using hlen
  rw [List.getD_eq_getElem?_getD, List.getElem?_take_of_lt hcap,
    List.getElem?_append_left hmaplen, List.getElem?_map,
    List.getElem?_eq_getElem hlen]
  simp only [Option.map_some', Option.getD_some]
  have hshort2 : (lowerStr kws[i]).length < 3 := hshort
  rw [lookupCount_short _ _ hshort2, densityOf_zero]
  simp [List.get_eq_getElem]

/-- C10 (witness): the amended statement at a concrete text containing the
two-character keyword. -/
theorem analyzeKeywords_short_target_zero_witness :
    (analyzeKeywords "ab cd xyz".data ["ab".data]).getD 0 ⟨[], 0, 0⟩ =
      ⟨"ab".data, 0, 0⟩ :=
  analyzeKeywords_short_target_zero "ab cd xyz".data ["ab".data] 0
    (by decide) (by decide) (by decide) (by decide)

end PostAnalyze
